import Mathlib

/-!
Verification development for the remote.craftos-pc.cc relay server
(src/server.ts).  JavaScript strings are modelled as lists of UTF-16
code units (List Nat); Node buffers are modelled as lists of bytes
(List Nat, each < 256).  All machine arithmetic of the source (bitwise
ops on 32-bit integers in crc32, byte coercion in buffer writes) is
made explicit over Nat.
-/

namespace CraftOS

/-- A JavaScript string: its UTF-16 code units. -/
abbrev JsStr := List Nat

/-- A Node byte buffer. -/
abbrev Bytes := List Nat

/-! ## UTF-8 encoding (Node Buffer.write / Buffer.byteLength semantics) -/

/-- UTF-8 bytes of a single UTF-16 code unit that is not part of a
surrogate pair.  Lone surrogates become the replacement character
EF BF BD, as in Node. -/
def utf8Units (u : Nat) : Bytes :=
  if u < 0x80 then [u]
  else if u < 0x800 then [0xC0 ||| (u >>> 6), 0x80 ||| (u &&& 0x3F)]
  else if 0xD800 ≤ u ∧ u < 0xE000 then [0xEF, 0xBF, 0xBD]
  else [0xE0 ||| (u >>> 12), 0x80 ||| ((u >>> 6) &&& 0x3F), 0x80 ||| (u &&& 0x3F)]

/-- UTF-8 bytes of a surrogate pair (hi in D800..DBFF, lo in DC00..DFFF). -/
def utf8PairUnits (hi lo : Nat) : Bytes :=
  let cp := 0x10000 + ((hi - 0xD800) <<< 10) + (lo - 0xDC00)
  [0xF0 ||| (cp >>> 18), 0x80 ||| ((cp >>> 12) &&& 0x3F),
   0x80 ||| ((cp >>> 6) &&& 0x3F), 0x80 ||| (cp &&& 0x3F)]

/-- Full UTF-8 encoding, fuel-driven (structural on the fuel so that it
reduces in the kernel); fuel at least the string length is exact. -/
def utf8EncodeAux : Nat → JsStr → Bytes
  | 0, _ => []
  | _, [] => []
  | _ + 1, [u] => utf8Units u
  | fuel + 1, u :: lo :: rest2 =>
    if 0xD800 ≤ u ∧ u < 0xDC00 then
      if 0xDC00 ≤ lo ∧ lo < 0xE000 then utf8PairUnits u lo ++ utf8EncodeAux fuel rest2
      else utf8Units u ++ utf8EncodeAux fuel (lo :: rest2)
    else utf8Units u ++ utf8EncodeAux fuel (lo :: rest2)

/-- Full UTF-8 encoding of a JS string (Node Buffer.byteLength input). -/
def utf8Encode (s : JsStr) : Bytes := utf8EncodeAux s.length s

/-- Node Buffer.byteLength of a JS string (UTF-8). -/
def byteLength (s : JsStr) : Nat := (utf8Encode s).length

/-- UTF-8 encoding truncated to the characters that fully fit in
`space` bytes — the semantics of Node Buffer.write, which never writes
a partially encoded character.  Fuel-driven like utf8EncodeAux. -/
def utf8EncodeFitAux : Nat → JsStr → Nat → Bytes
  | 0, _, _ => []
  | _, [], _ => []
  | _ + 1, [u], space =>
    if (utf8Units u).length ≤ space then utf8Units u else []
  | fuel + 1, u :: lo :: rest2, space =>
    if 0xD800 ≤ u ∧ u < 0xDC00 then
      if 0xDC00 ≤ lo ∧ lo < 0xE000 then
        if (utf8PairUnits u lo).length ≤ space then
          utf8PairUnits u lo ++ utf8EncodeFitAux fuel rest2 (space - (utf8PairUnits u lo).length)
        else []
      else
        if (utf8Units u).length ≤ space then
          utf8Units u ++ utf8EncodeFitAux fuel (lo :: rest2) (space - (utf8Units u).length)
        else []
    else
      if (utf8Units u).length ≤ space then
        utf8Units u ++ utf8EncodeFitAux fuel (lo :: rest2) (space - (utf8Units u).length)
      else []

/-- The bytes Node Buffer.write puts down when `space` bytes are left. -/
def utf8EncodeFit (s : JsStr) (space : Nat) : Bytes := utf8EncodeFitAux s.length s space

/-! ## Base64 (Node Buffer.toString with base64 argument) -/

/-- The standard base64 alphabet as a character-code function. -/
def b64char (n : Nat) : Nat :=
  if n < 26 then 65 + n
  else if n < 52 then 97 + (n - 26)
  else if n < 62 then 48 + (n - 52)
  else if n = 62 then 43
  else 47

/-- RFC 4648 base64 with padding, as Node produces it. -/
def base64encode : Bytes → JsStr
  | a :: b :: c :: rest =>
    b64char (a >>> 2) :: b64char (((a &&& 3) <<< 4) ||| (b >>> 4)) ::
    b64char (((b &&& 15) <<< 2) ||| (c >>> 6)) :: b64char (c &&& 63) ::
    base64encode rest
  | [a, b] => [b64char (a >>> 2), b64char (((a &&& 3) <<< 4) ||| (b >>> 4)),
               b64char ((b &&& 15) <<< 2), 61]
  | [a] => [b64char (a >>> 2), b64char ((a &&& 3) <<< 4), 61, 61]
  | [] => []

/-! ## CRC-32 (makeCRCTable / crc32 from server.ts) -/

/-- One bit-step of the table generator:
`c = c & 1 ? 0xEDB88320 ^ (c >>> 1) : c >>> 1`. -/
def crcStep (c : Nat) : Nat :=
  if c &&& 1 = 1 then 0xEDB88320 ^^^ (c >>> 1) else c >>> 1

/-- One table entry: eight bit-steps applied to the index. -/
def crcEntry (n : Nat) : Nat :=
  crcStep (crcStep (crcStep (crcStep (crcStep (crcStep (crcStep (crcStep n)))))))

/-- The 256-entry CRC table built by makeCRCTable. -/
def crcTable : List Nat := (List.range 256).map crcEntry

/-- crc32 of a JS string: iterate
`crc = (crc >>> 8) ^ crcTable[(crc ^ charCode) & 0xFF]` from `0 ^ (-1)`
and finish with `(crc ^ (-1)) >>> 0`; all values kept as unsigned
32-bit numbers. -/
def crc32 (s : JsStr) : Nat :=
  (s.foldl (fun crc c => (crc >>> 8) ^^^ crcTable.getD ((crc ^^^ c) &&& 0xFF) 0)
    0xFFFFFFFF) ^^^ 0xFFFFFFFF

/-! ## Hex rendering (JS Number.prototype.toString with radix 16) -/

/-- Lowercase hex digit character code. -/
def hexDigitChar (n : Nat) : Nat := if n < 10 then 48 + n else 87 + n

/-- Fuel-driven most-significant-first hex digit list; fuel `n` is
always enough since a number has at most `n` digits. -/
def hexRecAux : Nat → Nat → List Nat
  | 0, _ => []
  | fuel + 1, n =>
    if n = 0 then [] else hexRecAux fuel (n / 16) ++ [hexDigitChar (n % 16)]

/-- Character codes of `n.toString(16)` (lowercase hex, "0" for zero). -/
def hexDigits (n : Nat) : List Nat := if n = 0 then [48] else hexRecAux n n

/-- JS `String.prototype.slice(-k)`: the last `k` elements. -/
def takeRight (l : List Nat) (k : Nat) : List Nat := l.drop (l.length - k)

/-- The length field of a packet: `("000" + len.toString(16)).slice(-4)`. -/
def lenField (n : Nat) : JsStr := takeRight ([48, 48, 48] ++ hexDigits n) 4

/-- The checksum field: `("0000000" + crc.toString(16)).slice(-8)`. -/
def crcField (n : Nat) : JsStr := takeRight ([48, 48, 48, 48, 48, 48, 48] ++ hexDigits n) 8

/-- Zero-padded exact lowercase hex to `k` digits: the form the spec
describes for the embedded fields. -/
def hexPad (k n : Nat) : JsStr := List.replicate (k - (hexDigits n).length) 48 ++ hexDigits n

/-! ## The broadcast framer (sendMessage in server.ts) -/

/-- Character codes of the ASCII literal written at offset 6. -/
def labelBytes : Bytes :=
  [77, 101, 115, 115, 97, 103, 101, 32, 102, 114, 111, 109, 32, 115, 101, 114, 118, 101, 114]

/-- Overwrite `buf` starting at `off` with the bytes `bs`
(`off + bs.length ≤ buf.length` in every use). -/
def writeAt (buf : Bytes) (off : Nat) (bs : Bytes) : Bytes :=
  buf.take off ++ bs ++ buf.drop (off + bs.length)

/-- Node `buf.write(s, off)`: UTF-8 encode `s` into the space left after
`off`, never writing a partial character. -/
def bufWrite (buf : Bytes) (s : JsStr) (off : Nat) : Bytes :=
  writeAt buf off (utf8EncodeFit s (buf.length - off))

/-- The broadcast buffer:
`Buffer.alloc(27 + message.length)` (zero filled), `buf[0] = 5`,
`buf[2] = 0x40`, `buf.write("Message from server", 6)`,
`buf.write(message, 26)`. -/
def mkBuf (message : JsStr) : Bytes :=
  bufWrite (bufWrite (((List.replicate (27 + message.length) 0).set 0 5).set 2 0x40)
    labelBytes 6) message 26

/-- One envelope: `"!CPC" + lenField + b64 + crcField + "\n"`. -/
def mkPacket (b64 : JsStr) (crc : Nat) : JsStr :=
  [33, 67, 80, 67] ++ lenField b64.length ++ b64 ++ crcField crc ++ [10]

/-- The two envelopes sendMessage builds: the first checksums the base64
text, the second checksums the raw buffer read back as a binary
(one char per byte) string. -/
def sendMessagePackets (message : JsStr) : JsStr × JsStr :=
  (mkPacket (base64encode (mkBuf message)) (crc32 (base64encode (mkBuf message))),
   mkPacket (base64encode (mkBuf message)) (crc32 (mkBuf message)))

/-! ## The session registry (connectionPools / connectionPoolOpen) -/

/-- A session identifier: the request URL used as the object key. -/
abbrev SessionId := String

/-- A member connection: the socket identity plus the controller flag
read from the X-Rawterm-Is-Server header at connection time. -/
structure Member where
  sockId : Nat
  isServer : Bool
deriving DecidableEq, Repr

/-- The two parallel key-value objects of the server. -/
structure ServerState where
  connectionPools : List (SessionId × List Member)
  connectionPoolOpen : List (SessionId × Nat)
deriving DecidableEq, Repr

/-- The empty registry (server start). -/
def emptyState : ServerState := ⟨[], []⟩

/-- JS object read `obj[k]` on an insertion-ordered key list. -/
def alookup {α : Type} (l : List (SessionId × α)) (k : SessionId) : Option α :=
  (l.find? (fun e => e.1 == k)).map (fun e => e.2)

/-- JS object write `obj[k] = v` for a key already present. -/
def aupdate {α : Type} (l : List (SessionId × α)) (k : SessionId) (v : α) :
    List (SessionId × α) :=
  l.map (fun e => if e.1 == k then (k, v) else e)

/-- JS `delete obj[k]`. -/
def aerase {α : Type} (l : List (SessionId × α)) (k : SessionId) :
    List (SessionId × α) :=
  l.filter (fun e => !(e.1 == k))

/-- The key set of a JS object (Object.keys / for-in order). -/
def akeys {α : Type} (l : List (SessionId × α)) : List SessionId := l.map (fun e => e.1)

/-- The pool of a session, if present. -/
def lookupPool (st : ServerState) (sid : SessionId) : Option (List Member) :=
  alookup st.connectionPools sid

/-- memberCount of a session (0 when absent). -/
def memberCount (st : ServerState) (sid : SessionId) : Nat :=
  ((lookupPool st sid).getD []).length

/-- The connection handler: create the pool (and record the open time)
if the URL is new, then push the socket. -/
def connectionHandler (st : ServerState) (sid : SessionId) (m : Member) (now : Nat) :
    ServerState :=
  match alookup st.connectionPools sid with
  | none =>
      { connectionPools := st.connectionPools ++ [(sid, [m])],
        connectionPoolOpen := st.connectionPoolOpen ++ [(sid, now)] }
  | some pool =>
      { st with connectionPools := aupdate st.connectionPools sid (pool ++ [m]) }

/-- `pool.splice(pool.indexOf(m), 1)`: removes the first occurrence of
`m` when present; when `indexOf` returns -1, `splice(-1, 1)` removes the
LAST element of the array. -/
def spliceLeave (pool : List Member) (m : Member) : List Member :=
  if m ∈ pool then pool.erase m else pool.dropLast

/-- The close handler body.  Returns the new state plus the list of
sockets on which `close()` was called (the cascade when the leaving
member carried the controller flag), or `none` when the session is
already gone from the registry — in which case the source throws a
TypeError on `undefined.splice` before mutating anything. -/
def closeHandler (st : ServerState) (sid : SessionId) (m : Member) :
    Option (ServerState × List Member) :=
  match alookup st.connectionPools sid with
  | none => none
  | some pool =>
      let pool2 := spliceLeave pool m
      let closes := if m.isServer then pool2 else []
      if pool2.isEmpty then
        some (⟨aerase st.connectionPools sid, aerase st.connectionPoolOpen sid⟩, closes)
      else
        some ({ st with connectionPools := aupdate st.connectionPools sid pool2 }, closes)

/-- Run the transport's pending close events: each fires the close
handler once; a close delivered after the session is gone finds nothing
(a socket's close event fires at most once).  Fuel-driven; the fuel
used below always suffices. -/
def processCloses : Nat → ServerState → SessionId → List Member → ServerState
  | 0, st, _, _ => st
  | fuel + 1, st, sid, pending =>
    match pending with
    | [] => st
    | m :: rest =>
      match closeHandler st sid m with
      | none => processCloses fuel st sid rest
      | some (st2, more) => processCloses fuel st2 sid (rest ++ more)

/-- The full disconnect of member `m`: its own close handler, then every
close it requested, cascading.  Returns the final state and the set of
members the disconnect force-closed. -/
def disconnect (st : ServerState) (sid : SessionId) (m : Member) :
    ServerState × List Member :=
  match closeHandler st sid m with
  | none => (st, [])
  | some (st2, closes) =>
      (processCloses (closes.length * closes.length + closes.length + 1) st2 sid closes,
       closes)

/-- The message handler fan-out: the sockets that receive the message,
paired with the delivered (unmodified) payload. -/
def relayDeliveries (pool : List Member) (sender : Member) (msg : Bytes) :
    List (Member × Bytes) :=
  (pool.filter (fun s => s ≠ sender)).map (fun s => (s, msg))

/-- Relay of a message arriving from `sender` in session `sid`. -/
def messageHandler (st : ServerState) (sid : SessionId) (sender : Member) (msg : Bytes) :
    List (Member × Bytes) :=
  relayDeliveries ((lookupPool st sid).getD []) sender msg

/-- One reaper sweep: the (session, member) pairs whose socket gets
`close()` called — pools with exactly one member whose pool is older
than 60000 ms. -/
def reaperSweep (st : ServerState) (now : Nat) : List (SessionId × Member) :=
  st.connectionPools.filterMap (fun e =>
    if e.2.length = 1 ∧ now - (alookup st.connectionPoolOpen e.1).getD 0 > 60000 then
      (e.2.head?).map (fun m => (e.1, m))
    else none)

/-- The sends sendMessage performs: for each session, for each member,
the text-checksum packet then the binary-checksum packet. -/
def sendMessageSends (st : ServerState) (message : JsStr) : List (Member × JsStr) :=
  st.connectionPools.flatMap (fun e =>
    e.2.flatMap (fun s =>
      [(s, (sendMessagePackets message).1), (s, (sendMessagePackets message).2)]))

/-! ## Operation sequences over the registry -/

/-- A registry operation: a connection (join) or a socket close (leave). -/
inductive Op where
  | join (sid : SessionId) (m : Member) (now : Nat)
  | leave (sid : SessionId) (m : Member)
deriving DecidableEq, Repr

/-- Apply one operation.  A close event for an absent session throws in
the source before mutating anything, so the state is unchanged. -/
def applyOp (st : ServerState) : Op → ServerState
  | .join sid m now => connectionHandler st sid m now
  | .leave sid m =>
    match closeHandler st sid m with
    | none => st
    | some (st2, _) => st2

/-- Replay a sequence of operations from a starting state. -/
def replayFrom (st : ServerState) (ops : List Op) : ServerState :=
  ops.foldl applyOp st

/-- Replay from the empty registry. -/
def replay (ops : List Op) : ServerState := replayFrom emptyState ops

/-- Does this operation join session `sid`? -/
def isJoinTo (sid : SessionId) : Op → Bool
  | .join s _ _ => s == sid
  | _ => false

/-- Does this operation leave session `sid`? -/
def isLeaveTo (sid : SessionId) : Op → Bool
  | .leave s _ => s == sid
  | _ => false

/-- Number of joins performed on `sid` in the sequence. -/
def countJoins (sid : SessionId) (ops : List Op) : Nat :=
  (ops.filter (isJoinTo sid)).length

/-- Number of leaves performed on `sid` in the sequence. -/
def countLeaves (sid : SessionId) (ops : List Op) : Nat :=
  (ops.filter (isLeaveTo sid)).length

/-- An operation is admissible in state `st` when it is a join, or a
leave whose session is present in the registry. -/
def opOK (st : ServerState) : Op → Bool
  | .join _ _ _ => true
  | .leave sid _ => (alookup st.connectionPools sid).isSome

/-- A sequence is well-formed from `st` when every leave targets a
session present in the registry at that moment. -/
def wfFrom (st : ServerState) : List Op → Bool
  | [] => true
  | op :: rest => opOK st op && wfFrom (applyOp st op) rest

/-! ## The session identifier generator (makeID) -/

/-- `Math.floor(r * 255)` stored into a byte of the buffer (the byte
assignment coerces with modulo 256; for draws in [0, 1) the value is
already in range). -/
def jsByte (r : ℚ) : Nat := ((Int.floor (r * 255)) % 256).toNat

/-- Global single-character replacement, `s.replace(/x/g, "y")` on a
string whose characters are the list elements. -/
def replaceChars (s : JsStr) (a b : Nat) : JsStr :=
  s.map (fun c => if c = a then b else c)

/-- makeID applied to the 30 draws of Math.random: base64-encode the 30
generated bytes, then `/` → `_` and `+` → `-`. -/
def makeID (rs : List ℚ) : JsStr :=
  replaceChars (replaceChars (base64encode (rs.map jsByte)) 47 95) 43 45

/-! ## Lemmas about the identifier generator -/

theorem not_mem_replaceChars_self {s : JsStr} {a b : Nat} (hab : a ≠ b) :
    a ∉ replaceChars s a b := by
  intro h
  rcases List.mem_map.mp h with ⟨c, _, hc⟩
  by_cases hca : c = a
  · simp [hca] at hc
    exact hab hc.symm
  · simp [hca] at hc

theorem not_mem_replaceChars_of_not_mem {s : JsStr} {a b c : Nat}
    (hc : c ∉ s) (hcb : c ≠ b) : c ∉ replaceChars s a b := by
  intro h
  rcases List.mem_map.mp h with ⟨d, hd, hdc⟩
  by_cases hda : d = a <;> simp [hda] at hdc
  · exact hcb hdc.symm
  · exact hc (hdc ▸ hd)

theorem length_replaceChars (s : JsStr) (a b : Nat) :
    (replaceChars s a b).length = s.length := List.length_map _ _

theorem b64char_ne_61 (n : Nat) : b64char n ≠ 61 := by
  unfold b64char
  split
  · omega
  · split
    · omega
    · split
      · omega
      · split <;> omega

theorem length_base64encode (l : Bytes) :
    (base64encode l).length = 4 * ((l.length + 2) / 3) := by
  induction l using base64encode.induct with
  | case1 a b c rest ih => simp [base64encode, ih]; omega
  | case2 a b => simp [base64encode]
  | case3 a => simp [base64encode]
  | case4 => simp [base64encode]

theorem not_mem_base64encode_61 (l : Bytes) (h : l.length % 3 = 0) :
    61 ∉ base64encode l := by
  induction l using base64encode.induct with
  | case1 a b c rest ih =>
    have hr : rest.length % 3 = 0 := by
      simp [List.length_cons] at h; omega
    intro hm
    simp [base64encode] at hm
    rcases hm with h1 | h1 | h1 | h1 | h1
    · exact b64char_ne_61 _ h1.symm
    · exact b64char_ne_61 _ h1.symm
    · exact b64char_ne_61 _ h1.symm
    · exact b64char_ne_61 _ h1.symm
    · exact ih hr h1
  | case2 a b => simp at h
  | case3 a => simp at h
  | case4 => simp [base64encode]

theorem jsByte_eq_floor {r : ℚ} (h0 : 0 ≤ r) (h1 : r < 1) :
    jsByte r = (Int.floor (r * 255)).toNat ∧ jsByte r ≤ 254 := by
  have hnn : (0 : ℤ) ≤ Int.floor (r * 255) := by
    apply Int.floor_nonneg.mpr
    positivity
  have hlt : Int.floor (r * 255) < 255 := by
    apply Int.floor_lt.mpr
    push_cast
    nlinarith
  have hmod : Int.floor (r * 255) % 256 = Int.floor (r * 255) :=
    Int.emod_eq_of_lt hnn (by omega)
  constructor
  · simp [jsByte, hmod]
  · simp only [jsByte, hmod]
    omega

/-- C9: every token of the session identifier generator is the base64
encoding of the 30 generated bytes with every slash replaced by an
underscore and every plus replaced by a hyphen, and therefore no token
contains a slash (47) or a plus (43). -/
theorem makeID_urlsafe (rs : List ℚ) (hlen : rs.length = 30) :
    makeID rs = replaceChars (replaceChars (base64encode (rs.map jsByte)) 47 95) 43 45
    ∧ 47 ∉ makeID rs ∧ 43 ∉ makeID rs := by
  refine ⟨rfl, ?_, ?_⟩
  · unfold makeID
    exact not_mem_replaceChars_of_not_mem (not_mem_replaceChars_self (by omega)) (by omega)
  · unfold makeID
    exact not_mem_replaceChars_self (by omega)

/-- Witness for C9 at the 30 draws all equal to 0. -/
theorem makeID_urlsafe_witness :
    (List.replicate 30 (0 : ℚ)).length = 30
    ∧ 47 ∉ makeID (List.replicate 30 (0 : ℚ))
    ∧ 43 ∉ makeID (List.replicate 30 (0 : ℚ)) :=
  ⟨by simp, (makeID_urlsafe (List.replicate 30 (0 : ℚ)) (by simp)).2.1,
    (makeID_urlsafe (List.replicate 30 (0 : ℚ)) (by simp)).2.2⟩

/-- C10: each generated byte is floor(r * 255) for its draw r in [0, 1),
hence at most 254 (255 is never produced), and the token is always
exactly 40 characters with no padding character 61. -/
theorem makeID_byte_range (rs : List ℚ) (hlen : rs.length = 30)
    (hr : ∀ r ∈ rs, 0 ≤ r ∧ r < 1) :
    (∀ r ∈ rs, jsByte r = (Int.floor (r * 255)).toNat ∧ jsByte r ≤ 254)
    ∧ (makeID rs).length = 40 ∧ 61 ∉ makeID rs := by
  refine ⟨fun r hrm => jsByte_eq_floor (hr r hrm).1 (hr r hrm).2, ?_, ?_⟩
  · simp [makeID, length_replaceChars, length_base64encode, List.length_map, hlen]
  · unfold makeID
    have h61 : 61 ∉ base64encode (rs.map jsByte) := by
      apply not_mem_base64encode_61
      simp [List.length_map, hlen]
    exact not_mem_replaceChars_of_not_mem
      (not_mem_replaceChars_of_not_mem h61 (by omega)) (by omega)

/-- Witness for C10 at the 30 draws all equal to 0. -/
theorem makeID_byte_range_witness :
    ((List.replicate 30 (0 : ℚ)).length = 30 ∧ ∀ r ∈ List.replicate 30 (0 : ℚ), 0 ≤ r ∧ r < 1)
    ∧ (makeID (List.replicate 30 (0 : ℚ))).length = 40
    ∧ 61 ∉ makeID (List.replicate 30 (0 : ℚ)) := by
  have hr : ∀ r ∈ List.replicate 30 (0 : ℚ), 0 ≤ r ∧ r < 1 := by
    intro r h
    rw [List.eq_of_mem_replicate h]
    norm_num
  exact ⟨⟨by simp, hr⟩, (makeID_byte_range (List.replicate 30 (0 : ℚ)) (by simp) hr).2.1,
    (makeID_byte_range (List.replicate 30 (0 : ℚ)) (by simp) hr).2.2⟩

/-! ## Lemmas about the relay and the reaper -/

theorem eq_of_mem_of_nodup_akeys {α : Type} {l : List (SessionId × α)}
    (h : (akeys l).Nodup) {k : SessionId} {v w : α}
    (h1 : (k, v) ∈ l) (h2 : (k, w) ∈ l) : v = w := by
  induction l with
  | nil => cases h1
  | cons e rest ih =>
    have hk : akeys (e :: rest) = e.1 :: akeys rest := rfl
    rw [hk, List.nodup_cons] at h
    rcases List.mem_cons.mp h1 with he1 | ht1
    · cases he1
      rcases List.mem_cons.mp h2 with he2 | ht2
      · exact (congrArg Prod.snd he2).symm
      · exact absurd (List.mem_map.mpr ⟨(k, w), ht2, rfl⟩) h.1
    · rcases List.mem_cons.mp h2 with he2 | ht2
      · cases he2
        exact absurd (List.mem_map.mpr ⟨(k, v), ht1, rfl⟩) h.1
      · exact ih h.2 ht1 ht2

/-- C6: the relay delivers the message, unmodified, to exactly the
members of the session other than the sender; the sender never receives
an echo; if every member is the sender the message is dropped; a member
not in the pool at delivery time (for example one that joins later)
receives nothing. -/
theorem messageHandler_fanout (st : ServerState) (sid : SessionId) (sender : Member)
    (msg : Bytes) (pool : List Member) (hp : lookupPool st sid = some pool) :
    (∀ x m2, (x, m2) ∈ messageHandler st sid sender msg ↔ x ∈ pool ∧ x ≠ sender ∧ m2 = msg)
    ∧ (∀ m2, (sender, m2) ∉ messageHandler st sid sender msg)
    ∧ ((∀ y ∈ pool, y = sender) → messageHandler st sid sender msg = []) := by
  have hchar : ∀ x m2,
      (x, m2) ∈ messageHandler st sid sender msg ↔ x ∈ pool ∧ x ≠ sender ∧ m2 = msg := by
    intro x m2
    simp only [messageHandler, relayDeliveries, hp, Option.getD_some, List.mem_map,
      List.mem_filter, decide_not]
    constructor
    · rintro ⟨s, ⟨hs, hne⟩, heq⟩
      cases heq
      simp at hne
      exact ⟨hs, hne, rfl⟩
    · rintro ⟨hx, hne, rfl⟩
      exact ⟨x, ⟨hx, by simp [hne]⟩, rfl⟩
  refine ⟨hchar, ?_, ?_⟩
  · intro m2 hmem
    exact ((hchar sender m2).mp hmem).2.1 rfl
  · intro hall
    apply List.eq_nil_iff_forall_not_mem.mpr
    intro p hp2
    obtain ⟨x, m2⟩ := p
    have hx := (hchar x m2).mp hp2
    exact hx.2.1 (hall x hx.1)

/-- Witness for C6: members A and B, A sends — B receives the payload,
A does not. -/
theorem messageHandler_fanout_witness :
    lookupPool ⟨[("s", [⟨0, true⟩, ⟨1, false⟩])], [("s", 0)]⟩ "s" = some [⟨0, true⟩, ⟨1, false⟩]
    ∧ ((⟨1, false⟩, [7]) ∈
        messageHandler ⟨[("s", [⟨0, true⟩, ⟨1, false⟩])], [("s", 0)]⟩ "s" ⟨0, true⟩ [7])
    ∧ ∀ m2, (⟨0, true⟩, m2) ∉
        messageHandler ⟨[("s", [⟨0, true⟩, ⟨1, false⟩])], [("s", 0)]⟩ "s" ⟨0, true⟩ [7] :=
  ⟨by decide,
   ((messageHandler_fanout ⟨[("s", [⟨0, true⟩, ⟨1, false⟩])], [("s", 0)]⟩ "s" ⟨0, true⟩ [7]
      [⟨0, true⟩, ⟨1, false⟩] (by decide)).1 ⟨1, false⟩ [7]).mpr (by decide),
   (messageHandler_fanout ⟨[("s", [⟨0, true⟩, ⟨1, false⟩])], [("s", 0)]⟩ "s" ⟨0, true⟩ [7]
      [⟨0, true⟩, ⟨1, false⟩] (by decide)).2.1⟩

/-- C5: a reaper sweep closes the lone member of every singleton session
older than 60000 ms, leaves singleton sessions at or under the threshold
alone, and never closes a member of a session with two or more
members. -/
theorem reaperSweep_policy (st : ServerState) (now : Nat) (sid : SessionId) (t : Nat)
    (pool : List Member)
    (hmem : (sid, pool) ∈ st.connectionPools)
    (hopen : alookup st.connectionPoolOpen sid = some t)
    (hkeys : (akeys st.connectionPools).Nodup) :
    (∀ m, pool = [m] → now - t > 60000 → (sid, m) ∈ reaperSweep st now)
    ∧ (∀ m, pool = [m] → ¬(now - t > 60000) → (sid, m) ∉ reaperSweep st now)
    ∧ (2 ≤ pool.length → ∀ m ∈ pool, (sid, m) ∉ reaperSweep st now) := by
  refine ⟨?_, ?_, ?_⟩
  · intro m hm hage
    subst hm
    apply List.mem_filterMap.mpr
    exact ⟨(sid, [m]), hmem, by simp [hopen, hage]⟩
  · intro m hm hage hcontra
    rcases List.mem_filterMap.mp hcontra with ⟨e, he, hf⟩
    by_cases hcond : e.2.length = 1 ∧ now - (alookup st.connectionPoolOpen e.1).getD 0 > 60000
    · simp only [hcond, if_pos] at hf
      rcases Option.map_eq_some'.mp hf with ⟨m2, _, hpair⟩
      have hk : e.1 = sid := congrArg Prod.fst hpair
      have : e.2 = pool := eq_of_mem_of_nodup_akeys hkeys (hk ▸ he) hmem
      rw [hk, hopen] at hcond
      exact hage (by simpa using hcond.2)
    · simp [hcond] at hf
  · intro hlen m _ hcontra
    rcases List.mem_filterMap.mp hcontra with ⟨e, he, hf⟩
    by_cases hcond : e.2.length = 1 ∧ now - (alookup st.connectionPoolOpen e.1).getD 0 > 60000
    · simp only [hcond, if_pos] at hf
      rcases Option.map_eq_some'.mp hf with ⟨m2, _, hpair⟩
      have hk : e.1 = sid := congrArg Prod.fst hpair
      have he2 : e.2 = pool := eq_of_mem_of_nodup_akeys hkeys (hk ▸ he) hmem
      rw [he2] at hcond
      omega
    · simp [hcond] at hf

/-- Witness for C5: a lone member aged 60001 ms is closed by the sweep. -/
theorem reaperSweep_policy_witness :
    (("s", [(⟨0, true⟩ : Member)]) ∈
      (⟨[("s", [⟨0, true⟩])], [("s", 0)]⟩ : ServerState).connectionPools)
    ∧ ("s", (⟨0, true⟩ : Member)) ∈
        reaperSweep ⟨[("s", [⟨0, true⟩])], [("s", 0)]⟩ 60001 :=
  ⟨by decide,
   (reaperSweep_policy ⟨[("s", [⟨0, true⟩])], [("s", 0)]⟩ 60001 "s" 0 [⟨0, true⟩]
      (by decide) (by decide) (by decide)).1 ⟨0, true⟩ rfl (by decide)⟩

/-! ## Association list lemmas (JS object semantics) -/

theorem alookup_nil {α : Type} (k : SessionId) : alookup ([] : List (SessionId × α)) k = none :=
  rfl

theorem alookup_cons {α : Type} (e : SessionId × α) (rest : List (SessionId × α))
    (k : SessionId) :
    alookup (e :: rest) k = if e.1 = k then some e.2 else alookup rest k := by
  by_cases he : e.1 = k
  · rw [alookup, List.find?_cons_of_pos _ (by simpa using he), if_pos he]
    rfl
  · rw [alookup, List.find?_cons_of_neg _ (by simpa using he), if_neg he]
    rfl

theorem aupdate_cons {α : Type} (e : SessionId × α) (rest : List (SessionId × α))
    (k : SessionId) (v : α) :
    aupdate (e :: rest) k v = (if e.1 = k then (k, v) else e) :: aupdate rest k v := by
  by_cases he : e.1 = k
  · simp [aupdate, he]
  · simp [aupdate, he]

theorem aerase_cons {α : Type} (e : SessionId × α) (rest : List (SessionId × α))
    (k : SessionId) :
    aerase (e :: rest) k = if e.1 = k then aerase rest k else e :: aerase rest k := by
  by_cases he : e.1 = k
  · simp [aerase, he]
  · simp [aerase, he]

theorem alookup_isSome_iff {α : Type} (l : List (SessionId × α)) (k : SessionId) :
    (alookup l k).isSome ↔ k ∈ akeys l := by
  induction l with
  | nil => simp [alookup, akeys]
  | cons e rest ih =>
    rw [alookup_cons]
    by_cases he : e.1 = k
    · simp [akeys, he]
    · have hke : ¬(k = e.1) := fun hc => he hc.symm
      simp only [he, if_false, akeys, List.map_cons, List.mem_cons]
      rw [show (List.map (fun e => e.1) rest) = akeys rest from rfl]
      simp [ih, hke]

theorem alookup_eq_none_iff {α : Type} (l : List (SessionId × α)) (k : SessionId) :
    alookup l k = none ↔ k ∉ akeys l := by
  rw [← alookup_isSome_iff]
  cases alookup l k <;> simp

theorem mem_of_alookup_eq_some {α : Type} {l : List (SessionId × α)} {k : SessionId} {v : α}
    (h : alookup l k = some v) : (k, v) ∈ l := by
  induction l with
  | nil => simp [alookup] at h
  | cons e rest ih =>
    rw [alookup_cons] at h
    by_cases he : e.1 = k
    · rw [if_pos he] at h
      have : e = (k, v) := by
        obtain ⟨e1, e2⟩ := e
        simp at he h
        exact Prod.mk.injEq .. ▸ ⟨he, h⟩
      exact this ▸ List.mem_cons_self _ _
    · rw [if_neg he] at h
      exact List.mem_cons_of_mem _ (ih h)

theorem alookup_aupdate_self {α : Type} {l : List (SessionId × α)} {k : SessionId} (v : α)
    (h : (alookup l k).isSome) : alookup (aupdate l k v) k = some v := by
  induction l with
  | nil => simp [alookup] at h
  | cons e rest ih =>
    rw [aupdate_cons, alookup_cons]
    by_cases he : e.1 = k
    · simp [he]
    · rw [alookup_cons, if_neg he] at h
      simp only [he, if_false]
      exact ih h

theorem alookup_aupdate_ne {α : Type} (l : List (SessionId × α)) (k k2 : SessionId) (v : α)
    (h : k2 ≠ k) : alookup (aupdate l k v) k2 = alookup l k2 := by
  induction l with
  | nil => simp [alookup, aupdate]
  | cons e rest ih =>
    rw [aupdate_cons, alookup_cons, alookup_cons]
    by_cases he : e.1 = k
    · have h2 : ¬(k = k2) := fun hc => h hc.symm
      have h3 : ¬(e.1 = k2) := fun hc => h (he ▸ hc).symm
      simp [he, h2, h3, ih]
    · simp only [he, if_false]
      by_cases hq : e.1 = k2
      · simp [hq]
      · simp [hq, ih]

theorem alookup_aerase_self {α : Type} (l : List (SessionId × α)) (k : SessionId) :
    alookup (aerase l k) k = none := by
  induction l with
  | nil => simp [alookup, aerase]
  | cons e rest ih =>
    rw [aerase_cons]
    by_cases he : e.1 = k
    · simp [he, ih]
    · rw [if_neg he, alookup_cons, if_neg he]
      exact ih

theorem alookup_aerase_ne {α : Type} (l : List (SessionId × α)) (k k2 : SessionId)
    (h : k2 ≠ k) : alookup (aerase l k) k2 = alookup l k2 := by
  induction l with
  | nil => simp [alookup, aerase]
  | cons e rest ih =>
    rw [aerase_cons]
    by_cases he : e.1 = k
    · have h3 : ¬(e.1 = k2) := fun hc => h (he ▸ hc).symm
      rw [if_pos he, alookup_cons, if_neg h3]
      exact ih
    · rw [if_neg he, alookup_cons, alookup_cons]
      by_cases hq : e.1 = k2
      · simp [hq]
      · simp [hq, ih]

theorem not_mem_akeys_aerase {α : Type} (l : List (SessionId × α)) (k : SessionId) :
    k ∉ akeys (aerase l k) :=
  (alookup_eq_none_iff _ _).mp (alookup_aerase_self l k)

theorem alookup_append_ne {α : Type} (l : List (SessionId × α)) (k k2 : SessionId) (v : α)
    (h : k2 ≠ k) : alookup (l ++ [(k, v)]) k2 = alookup l k2 := by
  induction l with
  | nil =>
    have h4 : ¬(k = k2) := fun hc => h hc.symm
    rw [List.nil_append, alookup_cons, alookup_nil]
    simp [h4]
  | cons e rest ih =>
    rw [List.cons_append, alookup_cons, alookup_cons]
    by_cases hq : e.1 = k2
    · simp [hq]
    · simp [hq, ih]

theorem alookup_append_self {α : Type} (l : List (SessionId × α)) (k : SessionId) (v : α)
    (h : alookup l k = none) : alookup (l ++ [(k, v)]) k = some v := by
  induction l with
  | nil => simp [alookup_cons]
  | cons e rest ih =>
    rw [alookup_cons] at h
    rw [List.cons_append, alookup_cons]
    by_cases hq : e.1 = k
    · rw [if_pos hq] at h
      cases h
    · rw [if_neg hq] at h
      rw [if_neg hq]
      exact ih h

/-! ## C1: leave for an unknown member or an absent session -/

/-- C1 counterexample: on the registry holding session s with members
0 and 1, a leave for the absent member 2 is NOT a no-op (splice(-1, 1)
removes member 1), and a leave on the empty registry is an error
(TypeError on undefined.splice), modelled as none. -/
theorem closeHandler_c1_counterexample :
    closeHandler ⟨[("s", [⟨0, false⟩, ⟨1, false⟩])], [("s", 0)]⟩ "s" ⟨2, false⟩
      ≠ some (⟨[("s", [⟨0, false⟩, ⟨1, false⟩])], [("s", 0)]⟩, [])
    ∧ closeHandler emptyState "s" ⟨2, false⟩ = none := by
  constructor
  · decide
  · decide

/-- C1 amended: a leave for a session absent from the registry throws
(none, no mutation); a leave for a member not in an existing session's
array removes the LAST member of that array (splice with index -1)
instead of being a no-op — the session is deleted if that empties it,
otherwise its pool becomes pool.dropLast. -/
theorem closeHandler_not_noop (st : ServerState) (sid : SessionId) (m : Member) :
    (alookup st.connectionPools sid = none → closeHandler st sid m = none)
    ∧ ∀ pool, alookup st.connectionPools sid = some pool → m ∉ pool →
        spliceLeave pool m = pool.dropLast
        ∧ (pool.dropLast ≠ [] →
            ∃ st2 closes, closeHandler st sid m = some (st2, closes)
              ∧ lookupPool st2 sid = some pool.dropLast) := by
  constructor
  · intro h
    simp [closeHandler, h]
  · intro pool hp hnm
    have hsplice : spliceLeave pool m = pool.dropLast := by simp [spliceLeave, hnm]
    refine ⟨hsplice, fun hne => ?_⟩
    have hempty : (pool.dropLast).isEmpty = false := by
      cases hdl : pool.dropLast
      · exact absurd hdl hne
      · rfl
    refine ⟨{ st with connectionPools := aupdate st.connectionPools sid pool.dropLast },
      if m.isServer then pool.dropLast else [], ?_, ?_⟩
    · simp [closeHandler, hp, hsplice, hempty]
    · exact alookup_aupdate_self _ (by simp [lookupPool, hp])

/-- Witness for C1's amended claim: leaving with the absent member 2
removes member 1 from the pool of 0 and 1. -/
theorem closeHandler_not_noop_witness :
    alookup (⟨[("s", [⟨0, false⟩, ⟨1, false⟩])], [("s", 0)]⟩ : ServerState).connectionPools "s"
      = some [⟨0, false⟩, ⟨1, false⟩]
    ∧ (⟨2, false⟩ : Member) ∉ [(⟨0, false⟩ : Member), ⟨1, false⟩]
    ∧ spliceLeave [⟨0, false⟩, ⟨1, false⟩] ⟨2, false⟩ = [⟨0, false⟩]
    ∧ ∃ st2 closes,
        closeHandler ⟨[("s", [⟨0, false⟩, ⟨1, false⟩])], [("s", 0)]⟩ "s" ⟨2, false⟩
          = some (st2, closes)
        ∧ lookupPool st2 "s" = some [⟨0, false⟩] := by
  have h := (closeHandler_not_noop ⟨[("s", [⟨0, false⟩, ⟨1, false⟩])], [("s", 0)]⟩ "s"
    ⟨2, false⟩).2 [⟨0, false⟩, ⟨1, false⟩] (by decide) (by decide)
  exact ⟨by decide, by decide, h.1, h.2 (by decide)⟩

/-! ## The registry invariant: no session with an empty pool -/

/-- Every pool stored in the registry is non-empty. -/
def InvNE (st : ServerState) : Prop := ∀ e ∈ st.connectionPools, e.2 ≠ []

theorem invNE_empty : InvNE emptyState := by
  intro e he
  cases he

theorem spliceLeave_length {pool : List Member} (m : Member) (h : pool ≠ []) :
    (spliceLeave pool m).length = pool.length - 1 := by
  unfold spliceLeave
  by_cases hm : m ∈ pool
  · simp [hm, List.length_erase_of_mem hm]
  · simp [hm, List.length_dropLast]

theorem mem_aupdate {α : Type} {l : List (SessionId × α)} {k : SessionId} {v : α}
    {e : SessionId × α} (h : e ∈ aupdate l k v) : e ∈ l ∨ e = (k, v) := by
  rcases List.mem_map.mp h with ⟨e2, he2, heq⟩
  by_cases hk : e2.1 == k
  · right
    rw [← heq]
    simp [hk]
  · left
    rw [← heq]
    simpa [hk] using he2

theorem mem_aerase {α : Type} {l : List (SessionId × α)} {k : SessionId}
    {e : SessionId × α} (h : e ∈ aerase l k) : e ∈ l :=
  List.mem_of_mem_filter h

theorem invNE_connectionHandler (st : ServerState) (sid : SessionId) (m : Member) (now : Nat)
    (h : InvNE st) : InvNE (connectionHandler st sid m now) := by
  unfold connectionHandler
  cases halo : alookup st.connectionPools sid with
  | none =>
    intro e he
    rcases List.mem_append.mp he with h1 | h1
    · exact h e h1
    · simp at h1
      rw [h1]
      simp
  | some pool =>
    intro e he
    rcases mem_aupdate he with h1 | h1
    · exact h e h1
    · rw [h1]
      simp

theorem invNE_closeHandler {st st2 : ServerState} {sid : SessionId} {m : Member}
    {closes : List Member} (h : InvNE st)
    (hc : closeHandler st sid m = some (st2, closes)) : InvNE st2 := by
  unfold closeHandler at hc
  cases halo : alookup st.connectionPools sid with
  | none => rw [halo] at hc; cases hc
  | some pool =>
    rw [halo] at hc
    simp only at hc
    by_cases hemp : (spliceLeave pool m).isEmpty
    · rw [if_pos hemp] at hc
      simp only [Option.some.injEq, Prod.mk.injEq] at hc
      rw [← hc.1]
      intro e he
      exact h e (mem_aerase he)
    · rw [if_neg hemp] at hc
      simp only [Option.some.injEq, Prod.mk.injEq] at hc
      rw [← hc.1]
      intro e he
      rcases mem_aupdate he with h1 | h1
      · exact h e h1
      · rw [h1]
        simpa using hemp

theorem invNE_applyOp (st : ServerState) (op : Op) (h : InvNE st) : InvNE (applyOp st op) := by
  cases op with
  | join sid m now => exact invNE_connectionHandler st sid m now h
  | leave sid m =>
    simp only [applyOp]
    cases hc : closeHandler st sid m with
    | none => exact h
    | some p =>
      obtain ⟨st2, closes⟩ := p
      exact invNE_closeHandler h hc

theorem invNE_replayFrom (ops : List Op) :
    ∀ st : ServerState, InvNE st → InvNE (replayFrom st ops) := by
  induction ops with
  | nil => exact fun st h => h
  | cons op rest ih =>
    intro st h
    exact ih (applyOp st op) (invNE_applyOp st op h)

theorem invNE_replay (ops : List Op) : InvNE (replay ops) :=
  invNE_replayFrom ops emptyState invNE_empty

/-- C3: in every state reachable from the empty registry by join and
leave operations, a session identifier is listed among the registry's
keys exactly when its member count is positive; in particular,
immediately after the operation that removes a session's last member
the identifier is absent. -/
theorem replay_sessionIds_iff_nonempty (ops : List Op) (sid : SessionId) :
    sid ∈ akeys ((replay ops).connectionPools) ↔ 0 < memberCount (replay ops) sid := by
  have hInv := invNE_replay ops
  constructor
  · intro hk
    have hs := (alookup_isSome_iff _ _).mpr hk
    cases halo : alookup (replay ops).connectionPools sid with
    | none => rw [halo] at hs; cases hs
    | some pool =>
      have hne : pool ≠ [] := hInv (sid, pool) (mem_of_alookup_eq_some halo)
      simp [memberCount, lookupPool, halo, List.length_pos, hne]
  · intro hc
    apply (alookup_isSome_iff _ _).mp
    cases halo : alookup (replay ops).connectionPools sid with
    | none => simp [memberCount, lookupPool, halo] at hc
    | some pool => simp [halo]

/-! ## The member-count ledger (C8) -/

theorem countJoins_cons (sid : SessionId) (op : Op) (ops : List Op) :
    countJoins sid (op :: ops) = (if isJoinTo sid op then 1 else 0) + countJoins sid ops := by
  by_cases h : isJoinTo sid op = true
  · simp [countJoins, List.filter_cons, h]
    omega
  · simp [countJoins, List.filter_cons, h]

theorem countLeaves_cons (sid : SessionId) (op : Op) (ops : List Op) :
    countLeaves sid (op :: ops) = (if isLeaveTo sid op then 1 else 0) + countLeaves sid ops := by
  by_cases h : isLeaveTo sid op = true
  · simp [countLeaves, List.filter_cons, h]
    omega
  · simp [countLeaves, List.filter_cons, h]

theorem memberCount_connectionHandler_self (st : ServerState) (sid : SessionId)
    (m : Member) (now : Nat) :
    memberCount (connectionHandler st sid m now) sid = memberCount st sid + 1 := by
  unfold connectionHandler memberCount lookupPool
  cases halo : alookup st.connectionPools sid with
  | none => simp [alookup_append_self _ _ _ halo, halo]
  | some pool =>
    have hup : alookup (aupdate st.connectionPools sid (pool ++ [m])) sid
        = some (pool ++ [m]) := alookup_aupdate_self _ (by simp [halo])
    simp [hup, halo]

theorem memberCount_connectionHandler_ne (st : ServerState) (sid sid2 : SessionId)
    (m : Member) (now : Nat) (h : sid2 ≠ sid) :
    memberCount (connectionHandler st sid m now) sid2 = memberCount st sid2 := by
  unfold connectionHandler memberCount lookupPool
  cases halo : alookup st.connectionPools sid with
  | none => simp [alookup_append_ne _ _ _ _ h]
  | some pool => simp [alookup_aupdate_ne _ _ _ _ h]

theorem memberCount_closeHandler_self {st st2 : ServerState} {sid : SessionId} {m : Member}
    {closes : List Member} (hInv : InvNE st)
    (hc : closeHandler st sid m = some (st2, closes)) :
    memberCount st2 sid = memberCount st sid - 1 ∧ 1 ≤ memberCount st sid := by
  unfold closeHandler at hc
  cases halo : alookup st.connectionPools sid with
  | none => rw [halo] at hc; cases hc
  | some pool =>
    rw [halo] at hc
    simp only at hc
    have hne : pool ≠ [] := hInv _ (mem_of_alookup_eq_some halo)
    have hcount : memberCount st sid = pool.length := by
      simp [memberCount, lookupPool, halo]
    have hge : 1 ≤ memberCount st sid := by
      rw [hcount]
      exact List.length_pos.mpr hne
    have hlen := spliceLeave_length m hne
    by_cases hemp : (spliceLeave pool m).isEmpty
    · rw [if_pos hemp] at hc
      simp only [Option.some.injEq, Prod.mk.injEq] at hc
      refine ⟨?_, hge⟩
      rw [← hc.1, hcount]
      have hz : (spliceLeave pool m).length = 0 := by
        rw [List.isEmpty_iff] at hemp
        simp [hemp]
      simp [memberCount, lookupPool, alookup_aerase_self]
      omega
    · rw [if_neg hemp] at hc
      simp only [Option.some.injEq, Prod.mk.injEq] at hc
      refine ⟨?_, hge⟩
      rw [← hc.1, hcount]
      simp only [memberCount, lookupPool]
      have hup : alookup (aupdate st.connectionPools sid (spliceLeave pool m)) sid
          = some (spliceLeave pool m) := alookup_aupdate_self _ (by simp [halo])
      simp [hup, hlen]

theorem memberCount_closeHandler_ne {st st2 : ServerState} {sid : SessionId} {m : Member}
    {closes : List Member} (sid2 : SessionId) (h : sid2 ≠ sid)
    (hc : closeHandler st sid m = some (st2, closes)) :
    memberCount st2 sid2 = memberCount st sid2 := by
  unfold closeHandler at hc
  cases halo : alookup st.connectionPools sid with
  | none => rw [halo] at hc; cases hc
  | some pool =>
    rw [halo] at hc
    simp only at hc
    by_cases hemp : (spliceLeave pool m).isEmpty
    · rw [if_pos hemp] at hc
      simp only [Option.some.injEq, Prod.mk.injEq] at hc
      rw [← hc.1]
      simp [memberCount, lookupPool, alookup_aerase_ne _ _ _ h]
    · rw [if_neg hemp] at hc
      simp only [Option.some.injEq, Prod.mk.injEq] at hc
      rw [← hc.1]
      simp [memberCount, lookupPool, alookup_aupdate_ne _ _ _ _ h]

theorem closeHandler_total {st : ServerState} {sid : SessionId} (m : Member)
    (h : (alookup st.connectionPools sid).isSome) :
    ∃ st2 closes, closeHandler st sid m = some (st2, closes) := by
  cases halo : alookup st.connectionPools sid with
  | none => rw [halo] at h; cases h
  | some pool =>
    by_cases hemp : (spliceLeave pool m).isEmpty
    · exact ⟨⟨aerase st.connectionPools sid, aerase st.connectionPoolOpen sid⟩,
        if m.isServer then spliceLeave pool m else [], by simp [closeHandler, halo, hemp]⟩
    · exact ⟨{ st with connectionPools := aupdate st.connectionPools sid (spliceLeave pool m) },
        if m.isServer then spliceLeave pool m else [], by simp [closeHandler, halo, hemp]⟩

theorem replayFrom_net (ops : List Op) :
    ∀ st : ServerState, InvNE st → wfFrom st ops = true → ∀ sid : SessionId,
      (memberCount (replayFrom st ops) sid : ℤ)
        = memberCount st sid + countJoins sid ops - countLeaves sid ops := by
  induction ops with
  | nil =>
    intro st _ _ sid
    simp [replayFrom, countJoins, countLeaves]
  | cons op rest ih =>
    intro st hInv hwf sid
    rw [wfFrom, Bool.and_eq_true] at hwf
    have hInv2 := invNE_applyOp st op hInv
    have hrf : replayFrom st (op :: rest) = replayFrom (applyOp st op) rest := rfl
    rw [hrf, ih (applyOp st op) hInv2 hwf.2 sid, countJoins_cons, countLeaves_cons]
    have hstep : (memberCount (applyOp st op) sid : ℤ)
        = memberCount st sid + (if isJoinTo sid op then 1 else 0)
          - (if isLeaveTo sid op then 1 else 0) := by
      cases op with
      | join sid2 m now =>
        simp only [applyOp]
        by_cases hs : sid2 = sid
        · subst hs
          rw [memberCount_connectionHandler_self]
          simp [isJoinTo, isLeaveTo]
        · rw [memberCount_connectionHandler_ne st sid2 sid m now (fun hc => hs hc.symm)]
          have hb : (sid2 == sid) = false := beq_eq_false_iff_ne.mpr hs
          simp [isJoinTo, isLeaveTo, hb]
      | leave sid2 m =>
        have hok : (alookup st.connectionPools sid2).isSome := by
          simpa [opOK] using hwf.1
        obtain ⟨st2, closes, hch⟩ := closeHandler_total m hok
        have happ : applyOp st (Op.leave sid2 m) = st2 := by
          simp only [applyOp]
          rw [hch]
        rw [happ]
        by_cases hs : sid2 = sid
        · subst hs
          obtain ⟨hdec, hge⟩ := memberCount_closeHandler_self hInv hch
          rw [hdec]
          simp [isJoinTo, isLeaveTo]
          omega
        · rw [memberCount_closeHandler_ne sid (fun hc => hs hc.symm) hch]
          have hb : (sid2 == sid) = false := beq_eq_false_iff_ne.mpr hs
          simp [isJoinTo, isLeaveTo, hb]
    rw [hstep]
    push_cast
    ring

theorem wfFrom_take (ops : List Op) :
    ∀ (st : ServerState) (k : Nat), wfFrom st ops = true → wfFrom st (ops.take k) = true := by
  induction ops with
  | nil =>
    intro st k _
    simp [wfFrom]
  | cons op rest ih =>
    intro st k h
    cases k with
    | zero => rfl
    | succ k2 =>
      rw [wfFrom, Bool.and_eq_true] at h
      rw [List.take_succ_cons, wfFrom, Bool.and_eq_true]
      exact ⟨h.1, ih (applyOp st op) k2 h.2⟩

/-- C8 counterexample: replaying the single-element sequence consisting
of a leave on the (absent) session s leaves the member count at 0 —
the source throws before mutating — while the net join-minus-leave
count is -1, so the count does not equal the net. -/
theorem replay_net_counterexample :
    ¬((memberCount (replay [Op.leave "s" ⟨0, false⟩]) "s" : ℤ)
      = (countJoins "s" [Op.leave "s" ⟨0, false⟩] : ℤ)
        - countLeaves "s" [Op.leave "s" ⟨0, false⟩]) := by
  decide

/-- C8 amended: for every sequence in which each leave targets a session
present in the registry at that moment, and every prefix of it, the
member count of each session equals the number of joins minus the number
of leaves performed on it, and that net is never negative. -/
theorem replay_net_count (ops : List Op) (hwf : wfFrom emptyState ops = true)
    (k : Nat) (sid : SessionId) :
    (memberCount (replay (ops.take k)) sid : ℤ)
      = (countJoins sid (ops.take k) : ℤ) - countLeaves sid (ops.take k)
    ∧ countLeaves sid (ops.take k) ≤ countJoins sid (ops.take k) := by
  have hwfk := wfFrom_take ops emptyState k hwf
  have h := replayFrom_net (ops.take k) emptyState invNE_empty hwfk sid
  have hz : memberCount emptyState sid = 0 := rfl
  rw [replay] at *
  rw [h, hz]
  constructor
  · push_cast
    ring
  · have hnn : (0 : ℤ) ≤ memberCount (replayFrom emptyState (ops.take k)) sid := by
      positivity
    omega

/-- Witness for C8's amended claim: a join then a leave on session s,
full prefix — the count is 0 and equals 1 - 1. -/
theorem replay_net_count_witness :
    wfFrom emptyState [Op.join "s" ⟨0, false⟩ 0, Op.leave "s" ⟨0, false⟩] = true
    ∧ ((memberCount (replay (List.take 2 [Op.join "s" ⟨0, false⟩ 0,
          Op.leave "s" ⟨0, false⟩])) "s" : ℤ)
        = (countJoins "s" (List.take 2 [Op.join "s" ⟨0, false⟩ 0,
            Op.leave "s" ⟨0, false⟩]) : ℤ)
          - countLeaves "s" (List.take 2 [Op.join "s" ⟨0, false⟩ 0, Op.leave "s" ⟨0, false⟩])
        ∧ countLeaves "s" (List.take 2 [Op.join "s" ⟨0, false⟩ 0, Op.leave "s" ⟨0, false⟩])
          ≤ countJoins "s" (List.take 2 [Op.join "s" ⟨0, false⟩ 0, Op.leave "s" ⟨0, false⟩])) :=
  ⟨by decide, replay_net_count [Op.join "s" ⟨0, false⟩ 0, Op.leave "s" ⟨0, false⟩]
    (by decide) 2 "s"⟩

/-! ## The controller cascade (C4) -/

theorem processCloses_absent (fuel : Nat) :
    ∀ (st : ServerState) (sid : SessionId) (pending : List Member),
      sid ∉ akeys st.connectionPools → processCloses fuel st sid pending = st := by
  induction fuel with
  | zero =>
    intro st sid pending _
    rfl
  | succ f ih =>
    intro st sid pending h
    cases pending with
    | nil => rfl
    | cons m rest =>
      have hnone : alookup st.connectionPools sid = none := (alookup_eq_none_iff _ _).mpr h
      have hch : closeHandler st sid m = none := by simp [closeHandler, hnone]
      simp only [processCloses, hch]
      exact ih st sid rest h

theorem cascade_deletes (fuel : Nat) :
    ∀ (q dups : List Member) (st : ServerState) (sid : SessionId),
      alookup st.connectionPools sid = some q → q ≠ [] →
      q.length + q.length * q.length + dups.length ≤ fuel →
      sid ∉ akeys ((processCloses fuel st sid (q ++ dups)).connectionPools) := by
  induction fuel with
  | zero =>
    intro q dups st sid _ hne hfuel
    exfalso
    have := List.length_pos.mpr hne
    omega
  | succ f ih =>
    intro q dups st sid hq hne hfuel
    cases q with
    | nil => exact absurd rfl hne
    | cons qh qt =>
      have hsp : spliceLeave (qh :: qt) qh = qt := by
        rw [spliceLeave, if_pos (List.mem_cons_self qh qt), List.erase_cons_head]
      cases qt with
      | nil =>
        have hch : closeHandler st sid qh =
            some (⟨aerase st.connectionPools sid, aerase st.connectionPoolOpen sid⟩, []) := by
          simp [closeHandler, hq, hsp]
        rw [List.cons_append]
        simp only [processCloses, hch]
        have habs : sid ∉ akeys ((⟨aerase st.connectionPools sid,
            aerase st.connectionPoolOpen sid⟩ : ServerState).connectionPools) :=
          not_mem_akeys_aerase _ _
        rw [processCloses_absent f _ _ _ habs]
        exact habs
      | cons qh2 qt2 =>
        have hne2 : ((qh2 :: qt2) : List Member).isEmpty = false := rfl
        have hch : closeHandler st sid qh =
            some ({ st with connectionPools := aupdate st.connectionPools sid (qh2 :: qt2) },
              if qh.isServer then qh2 :: qt2 else []) := by
          simp [closeHandler, hq, hsp, hne2]
        rw [List.cons_append]
        simp only [processCloses, hch]
        have hup : alookup (aupdate st.connectionPools sid (qh2 :: qt2)) sid
            = some (qh2 :: qt2) := alookup_aupdate_self _ (by simp [hq])
        have hmore : (if qh.isServer then qh2 :: qt2 else []).length ≤ qt2.length + 1 := by
          cases qh.isServer <;> simp
        have hfuel2 : (qh2 :: qt2).length + (qh2 :: qt2).length * (qh2 :: qt2).length
            + (dups ++ (if qh.isServer then qh2 :: qt2 else [])).length ≤ f := by
          simp only [List.length_cons, List.length_append] at hfuel hmore ⊢
          nlinarith
        have := ih (qh2 :: qt2) (dups ++ (if qh.isServer then qh2 :: qt2 else []))
          { st with connectionPools := aupdate st.connectionPools sid (qh2 :: qt2) }
          sid hup (by simp) hfuel2
        rw [List.append_assoc]
        exact this

/-- C4: when a member whose controller flag is set disconnects, every
other member of the session at that moment gets close() called on it and
after the cascade of close events the session is deleted from the
registry; when a member without the flag disconnects, no close is issued
and the remaining members stay in the session. -/
theorem disconnect_cascade (st : ServerState) (sid : SessionId) (pool : List Member)
    (m : Member) (hp : alookup st.connectionPools sid = some pool) (hm : m ∈ pool) :
    (m.isServer = true →
      (∀ x ∈ pool, x ≠ m → x ∈ (disconnect st sid m).2)
      ∧ sid ∉ akeys ((disconnect st sid m).1.connectionPools))
    ∧ (m.isServer = false →
      (disconnect st sid m).2 = []
      ∧ (pool.erase m ≠ [] →
          lookupPool (disconnect st sid m).1 sid = some (pool.erase m))) := by
  have hsp : spliceLeave pool m = pool.erase m := by simp [spliceLeave, hm]
  constructor
  · intro hS
    cases he : pool.erase m with
    | nil =>
      have hch : closeHandler st sid m =
          some (⟨aerase st.connectionPools sid, aerase st.connectionPoolOpen sid⟩, []) := by
        simp [closeHandler, hp, hsp, he, hS]
      have hd : disconnect st sid m =
          (⟨aerase st.connectionPools sid, aerase st.connectionPoolOpen sid⟩, []) := by
        simp [disconnect, hch, processCloses]
      rw [hd]
      constructor
      · intro x hx hxm
        exfalso
        have hxe : x ∈ pool.erase m := (List.mem_erase_of_ne hxm).mpr hx
        rw [he] at hxe
        cases hxe
      · exact not_mem_akeys_aerase _ _
    | cons c cs =>
      have hemp : (pool.erase m).isEmpty = false := by rw [he]; rfl
      have hch : closeHandler st sid m =
          some ({ st with connectionPools := aupdate st.connectionPools sid (pool.erase m) },
            pool.erase m) := by
        simp [closeHandler, hp, hsp, hemp, hS]
      have hup : alookup (aupdate st.connectionPools sid (pool.erase m)) sid
          = some (pool.erase m) := alookup_aupdate_self _ (by simp [hp])
      have habs := cascade_deletes
        ((pool.erase m).length * (pool.erase m).length + (pool.erase m).length + 1)
        (pool.erase m) []
        { st with connectionPools := aupdate st.connectionPools sid (pool.erase m) }
        sid hup (by rw [he]; simp) (by simp; omega)
      rw [List.append_nil] at habs
      constructor
      · intro x hx hxm
        have hmem : x ∈ pool.erase m := (List.mem_erase_of_ne hxm).mpr hx
        simp only [disconnect, hch]
        exact hmem
      · simp only [disconnect, hch]
        exact habs
  · intro hS
    by_cases hemp : (pool.erase m).isEmpty
    · have hch : closeHandler st sid m =
          some (⟨aerase st.connectionPools sid, aerase st.connectionPoolOpen sid⟩, []) := by
        simp [closeHandler, hp, hsp, hemp, hS]
      have hd : disconnect st sid m =
          (⟨aerase st.connectionPools sid, aerase st.connectionPoolOpen sid⟩, []) := by
        simp [disconnect, hch, processCloses]
      rw [hd]
      exact ⟨rfl, fun hne => absurd (List.isEmpty_iff.mp hemp) hne⟩
    · have hempf : (pool.erase m).isEmpty = false := by
        cases hq : (pool.erase m).isEmpty
        · rfl
        · exact absurd hq hemp
      have hch : closeHandler st sid m =
          some ({ st with connectionPools := aupdate st.connectionPools sid (pool.erase m) },
            []) := by
        simp [closeHandler, hp, hsp, hempf, hS]
      have hd : disconnect st sid m =
          ({ st with connectionPools := aupdate st.connectionPools sid (pool.erase m) },
            []) := by
        simp [disconnect, hch, processCloses]
      rw [hd]
      refine ⟨rfl, fun _ => ?_⟩
      exact alookup_aupdate_self _ (by simp [hp])

/-- Witness for C4: controller 0 leaving session s with co-member 1
closes 1 and deletes s; non-controller 1 leaving instead closes nobody
and leaves 0 in s. -/
theorem disconnect_cascade_witness :
    ((⟨1, false⟩ : Member) ∈
        (disconnect ⟨[("s", [⟨0, true⟩, ⟨1, false⟩])], [("s", 0)]⟩ "s" ⟨0, true⟩).2
      ∧ "s" ∉ akeys ((disconnect ⟨[("s", [⟨0, true⟩, ⟨1, false⟩])], [("s", 0)]⟩ "s"
          ⟨0, true⟩).1.connectionPools))
    ∧ ((disconnect ⟨[("s", [⟨0, true⟩, ⟨1, false⟩])], [("s", 0)]⟩ "s" ⟨1, false⟩).2 = []
      ∧ lookupPool (disconnect ⟨[("s", [⟨0, true⟩, ⟨1, false⟩])], [("s", 0)]⟩ "s"
          ⟨1, false⟩).1 "s" = some [⟨0, true⟩]) := by
  have h1 := (disconnect_cascade ⟨[("s", [⟨0, true⟩, ⟨1, false⟩])], [("s", 0)]⟩ "s"
    [⟨0, true⟩, ⟨1, false⟩] ⟨0, true⟩ (by decide) (by decide)).1 rfl
  have h2 := (disconnect_cascade ⟨[("s", [⟨0, true⟩, ⟨1, false⟩])], [("s", 0)]⟩ "s"
    [⟨0, true⟩, ⟨1, false⟩] ⟨1, false⟩ (by decide) (by decide)).2 rfl
  exact ⟨⟨h1.1 ⟨1, false⟩ (by decide) (by decide), h1.2⟩, h2.1, h2.2 (by decide)⟩

/-! ## Buffer layout lemmas (C7) -/

theorem take_append_len {α : Type} (l1 l2 : List α) (n : Nat) (h : n = l1.length) :
    (l1 ++ l2).take n = l1 := by
  subst h
  exact List.take_left l1 l2

theorem drop_append_len {α : Type} (l1 l2 : List α) (n : Nat) (h : n = l1.length) :
    (l1 ++ l2).drop n = l2 := by
  subst h
  exact List.drop_left l1 l2

theorem utf8EncodeFitAux_length_le (fuel : Nat) :
    ∀ (s : JsStr) (space : Nat), (utf8EncodeFitAux fuel s space).length ≤ space := by
  induction fuel with
  | zero =>
    intro s space
    simp [utf8EncodeFitAux]
  | succ f ih =>
    intro s space
    cases s with
    | nil => simp [utf8EncodeFitAux]
    | cons u rest =>
      cases rest with
      | nil =>
        simp only [utf8EncodeFitAux]
        by_cases hf : (utf8Units u).length ≤ space
        · rw [if_pos hf]
          exact hf
        · rw [if_neg hf]
          simp
      | cons lo rest2 =>
        simp only [utf8EncodeFitAux]
        by_cases hs : 0xD800 ≤ u ∧ u < 0xDC00
        · rw [if_pos hs]
          by_cases hlo : 0xDC00 ≤ lo ∧ lo < 0xE000
          · rw [if_pos hlo]
            by_cases hf : (utf8PairUnits u lo).length ≤ space
            · rw [if_pos hf]
              have hr := ih rest2 (space - (utf8PairUnits u lo).length)
              simp only [List.length_append]
              omega
            · rw [if_neg hf]
              simp
          · rw [if_neg hlo]
            by_cases hf : (utf8Units u).length ≤ space
            · rw [if_pos hf]
              have hr := ih (lo :: rest2) (space - (utf8Units u).length)
              simp only [List.length_append]
              omega
            · rw [if_neg hf]
              simp
        · rw [if_neg hs]
          by_cases hf : (utf8Units u).length ≤ space
          · rw [if_pos hf]
            have hr := ih (lo :: rest2) (space - (utf8Units u).length)
            simp only [List.length_append]
            omega
          · rw [if_neg hf]
            simp

theorem utf8EncodeFit_length_le (s : JsStr) (space : Nat) :
    (utf8EncodeFit s space).length ≤ space :=
  utf8EncodeFitAux_length_le s.length s space

theorem utf8EncodeFitAux_ascii (fuel : Nat) :
    ∀ (s : JsStr) (space : Nat), (∀ c ∈ s, c < 128) → s.length ≤ space → s.length ≤ fuel →
      utf8EncodeFitAux fuel s space = s := by
  induction fuel with
  | zero =>
    intro s space _ _ hf
    cases s with
    | nil => rfl
    | cons u rest => simp at hf
  | succ f ih =>
    intro s space ha hsp hf
    cases s with
    | nil => rfl
    | cons u rest =>
      have hu : u < 128 := ha u (List.mem_cons_self _ _)
      have hns : ¬(0xD800 ≤ u ∧ u < 0xDC00) := by omega
      have hunits : utf8Units u = [u] := by rw [utf8Units, if_pos (by omega)]
      have hsp2 : rest.length + 1 ≤ space := by simpa using hsp
      cases rest with
      | nil =>
        simp only [utf8EncodeFitAux]
        rw [hunits, if_pos (by simp; omega)]
      | cons lo rest2 =>
        simp only [utf8EncodeFitAux]
        rw [if_neg hns, hunits]
        rw [if_pos (by simp; omega)]
        have hrec := ih (lo :: rest2) (space - ([u] : JsStr).length)
          (fun c hc => ha c (List.mem_cons_of_mem _ hc))
          (by simp at hsp2 ⊢; omega) (by simp at hf ⊢; omega)
        rw [hrec]
        rfl

theorem utf8EncodeFit_ascii (s : JsStr) (space : Nat) (ha : ∀ c ∈ s, c < 128)
    (hsp : s.length ≤ space) : utf8EncodeFit s space = s :=
  utf8EncodeFitAux_ascii s.length s space ha hsp le_rfl

theorem labelBytes_ascii : ∀ c ∈ labelBytes, c < 128 := by decide

theorem labelBytes_length : labelBytes.length = 19 := rfl

/-- The closed form of the broadcast buffer: tags, the server label, a
null gap, the UTF-8 payload that fits, and trailing zero fill. -/
theorem mkBuf_eq (msg : JsStr) :
    mkBuf msg = [5, 0, 0x40, 0, 0, 0] ++ labelBytes ++ [0]
      ++ utf8EncodeFit msg (msg.length + 1)
      ++ List.replicate (msg.length + 1 - (utf8EncodeFit msg (msg.length + 1)).length) 0 := by
  have hbase : (((List.replicate (27 + msg.length) 0).set 0 5).set 2 0x40 : Bytes)
      = [5, 0, 0x40, 0, 0, 0] ++ List.replicate (21 + msg.length) 0 := by
    have h27 : 27 + msg.length = 6 + (21 + msg.length) := by omega
    rw [h27, List.replicate_add]
    rfl
  have hblen : (([5, 0, 0x40, 0, 0, 0] : Bytes) ++ List.replicate (21 + msg.length) 0).length
      = 27 + msg.length := by
    simp only [List.length_append, List.length_replicate, List.length_cons, List.length_nil]
    omega
  have hlab : bufWrite (([5, 0, 0x40, 0, 0, 0] : Bytes)
        ++ List.replicate (21 + msg.length) 0) labelBytes 6
      = ([5, 0, 0x40, 0, 0, 0] ++ labelBytes) ++ List.replicate (2 + msg.length) 0 := by
    unfold bufWrite writeAt
    rw [hblen]
    have hsp : 27 + msg.length - 6 = 21 + msg.length := by omega
    rw [hsp, utf8EncodeFit_ascii labelBytes (21 + msg.length) labelBytes_ascii
      (by rw [labelBytes_length]; omega)]
    have htake : (([5, 0, 0x40, 0, 0, 0] : Bytes)
        ++ List.replicate (21 + msg.length) 0).take 6 = [5, 0, 0x40, 0, 0, 0] :=
      take_append_len _ _ 6 rfl
    have hsplit : List.replicate (21 + msg.length) (0 : Nat)
        = List.replicate 19 0 ++ List.replicate (2 + msg.length) 0 := by
      rw [← List.replicate_add]
      congr 1
      omega
    have h25 : 6 + labelBytes.length = 25 := rfl
    have hdrop : (([5, 0, 0x40, 0, 0, 0] : Bytes)
        ++ List.replicate (21 + msg.length) 0).drop 25 = List.replicate (2 + msg.length) 0 := by
      rw [hsplit, ← List.append_assoc]
      exact drop_append_len _ _ 25 (by
        simp only [List.length_append, List.length_replicate, List.length_cons,
          List.length_nil])
    rw [htake, h25, hdrop, List.append_assoc]
  have hb1len : ((([5, 0, 0x40, 0, 0, 0] : Bytes) ++ labelBytes)
      ++ List.replicate (2 + msg.length) 0).length = 27 + msg.length := by
    simp only [List.length_append, List.length_replicate, labelBytes_length,
      List.length_cons, List.length_nil]
    omega
  have hpay : bufWrite ((([5, 0, 0x40, 0, 0, 0] : Bytes) ++ labelBytes)
        ++ List.replicate (2 + msg.length) 0) msg 26
      = [5, 0, 0x40, 0, 0, 0] ++ labelBytes ++ [0]
        ++ utf8EncodeFit msg (msg.length + 1)
        ++ List.replicate (msg.length + 1 - (utf8EncodeFit msg (msg.length + 1)).length) 0 := by
    unfold bufWrite writeAt
    rw [hb1len]
    have hsp : 27 + msg.length - 26 = msg.length + 1 := by omega
    rw [hsp]
    have hple : (utf8EncodeFit msg (msg.length + 1)).length ≤ msg.length + 1 :=
      utf8EncodeFit_length_le msg (msg.length + 1)
    have hsplit0 : List.replicate (2 + msg.length) (0 : Nat)
        = [0] ++ List.replicate (1 + msg.length) 0 := by
      have h2 : 2 + msg.length = 1 + (1 + msg.length) := by omega
      rw [h2, List.replicate_add]
      rfl
    have hregroup : ((([5, 0, 0x40, 0, 0, 0] : Bytes) ++ labelBytes)
          ++ List.replicate (2 + msg.length) 0)
        = ((([5, 0, 0x40, 0, 0, 0] ++ labelBytes) ++ [0])
          ++ List.replicate (1 + msg.length) 0) := by
      rw [hsplit0, ← List.append_assoc]
    have htake : ((([5, 0, 0x40, 0, 0, 0] : Bytes) ++ labelBytes)
        ++ List.replicate (2 + msg.length) 0).take 26
        = ([5, 0, 0x40, 0, 0, 0] ++ labelBytes) ++ [0] := by
      rw [hregroup]
      exact take_append_len _ _ 26 (by
        simp only [List.length_append, labelBytes_length, List.length_cons, List.length_nil])
    have hsplit1 : List.replicate (1 + msg.length) (0 : Nat)
        = List.replicate (utf8EncodeFit msg (msg.length + 1)).length 0
          ++ List.replicate (msg.length + 1 - (utf8EncodeFit msg (msg.length + 1)).length) 0 := by
      rw [← List.replicate_add]
      congr 1
      omega
    have hdrop : ((([5, 0, 0x40, 0, 0, 0] : Bytes) ++ labelBytes)
        ++ List.replicate (2 + msg.length) 0).drop
          (26 + (utf8EncodeFit msg (msg.length + 1)).length)
        = List.replicate (msg.length + 1 - (utf8EncodeFit msg (msg.length + 1)).length) 0 := by
      rw [hregroup, hsplit1, ← List.append_assoc]
      exact drop_append_len _ _ _ (by
        simp only [List.length_append, List.length_replicate, labelBytes_length,
          List.length_cons, List.length_nil])
    rw [htake, hdrop]
  unfold mkBuf
  rw [hbase, hlab, hpay]

/-- The broadcast buffer always has length 27 plus the UTF-16 length of
the message (NOT its UTF-8 byte length). -/
theorem mkBuf_length (msg : JsStr) : (mkBuf msg).length = 27 + msg.length := by
  rw [mkBuf_eq]
  have hple : (utf8EncodeFit msg (msg.length + 1)).length ≤ msg.length + 1 :=
    utf8EncodeFit_length_le msg (msg.length + 1)
  simp only [List.length_append, List.length_replicate, labelBytes_length,
    List.length_cons, List.length_nil]
  omega

/-- C7 counterexample: for the one-character message "é" (code unit
233, UTF-8 byte length 2) the buffer has length 28 = 27 + 1, not
27 + byteLength = 29. -/
theorem mkBuf_byteLength_counterexample :
    ¬((mkBuf [233]).length = 27 + byteLength [233]) := by
  decide

/-- C7 amended: the framer builds a zero-filled buffer of length
27 + length(text) in UTF-16 code units (equal to 27 + byteLength(text)
only for single-byte texts), with byte 0 = 0x05, byte 2 = 0x40, the
ASCII label "Message from server" at bytes 6..24, byte 25 a null gap,
and the UTF-8 encoding of the text, truncated to the characters that
fit, written from byte 26 over the zero fill. -/
theorem mkBuf_c7_layout (msg : JsStr) :
    (mkBuf msg).length = 27 + msg.length
    ∧ mkBuf msg = [5, 0, 0x40, 0, 0, 0] ++ labelBytes ++ [0]
        ++ utf8EncodeFit msg (msg.length + 1)
        ++ List.replicate (msg.length + 1 - (utf8EncodeFit msg (msg.length + 1)).length) 0 :=
  ⟨mkBuf_length msg, mkBuf_eq msg⟩

/-! ## Hex field lemmas (C2) -/

theorem hexRecAux_length_le : ∀ (fuel n k : Nat), n ≤ fuel → n < 16 ^ k →
    (hexRecAux fuel n).length ≤ k := by
  intro fuel
  induction fuel with
  | zero =>
    intro n k _ _
    simp [hexRecAux]
  | succ f ih =>
    intro n k hn hk
    by_cases h0 : n = 0
    · simp [hexRecAux, h0]
    · have h1 : 1 ≤ n := Nat.one_le_iff_ne_zero.mpr h0
      have hkpos : 1 ≤ k := by
        by_contra hc
        have hk0 : k = 0 := by omega
        rw [hk0, pow_zero] at hk
        omega
      rw [hexRecAux, if_neg h0]
      have hpow : 16 ^ k = 16 ^ (k - 1) * 16 := by
        conv_lhs => rw [show k = (k - 1) + 1 by omega]
        rw [pow_succ]
      have hdiv : n / 16 < 16 ^ (k - 1) :=
        (Nat.div_lt_iff_lt_mul (by norm_num)).mpr (by omega)
      have hfuel : n / 16 ≤ f := by
        have := Nat.div_lt_self h1 (by norm_num : 1 < 16)
        omega
      have hrec := ih (n / 16) (k - 1) hfuel hdiv
      simp only [List.length_append, List.length_cons, List.length_nil]
      omega

theorem hexDigits_length_le (n k : Nat) (hk : 1 ≤ k) (h : n < 16 ^ k) :
    (hexDigits n).length ≤ k := by
  unfold hexDigits
  by_cases h0 : n = 0
  · rw [if_pos h0]
    simpa using hk
  · rw [if_neg h0]
    exact hexRecAux_length_le n n k le_rfl h

theorem hexDigits_length_pos (n : Nat) : 1 ≤ (hexDigits n).length := by
  unfold hexDigits
  by_cases h0 : n = 0
  · rw [if_pos h0]
    simp
  · rw [if_neg h0]
    cases n with
    | zero => exact absurd rfl h0
    | succ m =>
      rw [hexRecAux, if_neg h0]
      simp

theorem lenField_eq_hexPad (n : Nat) (h : (hexDigits n).length ≤ 4) :
    lenField n = hexPad 4 n := by
  have hp := hexDigits_length_pos n
  unfold lenField takeRight hexPad
  rw [List.drop_append_eq_append_drop]
  have hlen : (([48, 48, 48] : List Nat) ++ hexDigits n).length = 3 + (hexDigits n).length := by
    simp only [List.length_append, List.length_cons, List.length_nil]
  rw [hlen]
  have h2 : 3 + (hexDigits n).length - 4 - ([48, 48, 48] : List Nat).length = 0 := by
    simp only [List.length_cons, List.length_nil] <;> omega
  rw [h2, List.drop_zero]
  congr 1
  have hc : (hexDigits n).length = 1 ∨ (hexDigits n).length = 2 ∨ (hexDigits n).length = 3
      ∨ (hexDigits n).length = 4 := by omega
  rcases hc with hL | hL | hL | hL <;> rw [hL] <;> decide

theorem crcField_eq_hexPad (n : Nat) (h : (hexDigits n).length ≤ 8) :
    crcField n = hexPad 8 n := by
  have hp := hexDigits_length_pos n
  unfold crcField takeRight hexPad
  rw [List.drop_append_eq_append_drop]
  have hlen : (([48, 48, 48, 48, 48, 48, 48] : List Nat) ++ hexDigits n).length
      = 7 + (hexDigits n).length := by
    simp only [List.length_append, List.length_cons, List.length_nil]
  rw [hlen]
  have h2 : 7 + (hexDigits n).length - 8 - ([48, 48, 48, 48, 48, 48, 48] : List Nat).length
      = 0 := by
    simp only [List.length_cons, List.length_nil] <;> omega
  rw [h2, List.drop_zero]
  congr 1
  have hc : (hexDigits n).length = 1 ∨ (hexDigits n).length = 2 ∨ (hexDigits n).length = 3
      ∨ (hexDigits n).length = 4 ∨ (hexDigits n).length = 5 ∨ (hexDigits n).length = 6
      ∨ (hexDigits n).length = 7 ∨ (hexDigits n).length = 8 := by omega
  rcases hc with hL | hL | hL | hL | hL | hL | hL | hL <;> rw [hL] <;> decide

theorem lenField_length (n : Nat) : (lenField n).length = 4 := by
  have hp := hexDigits_length_pos n
  unfold lenField takeRight
  simp only [List.length_drop, List.length_append, List.length_cons, List.length_nil]
  omega

/-! ## CRC-32 range (C2) -/

theorem crcStep_lt {c : Nat} (h : c < 2 ^ 32) : crcStep c < 2 ^ 32 := by
  unfold crcStep
  have hs : c >>> 1 = c / 2 ^ 1 := Nat.shiftRight_eq_div_pow c 1
  split
  · exact Nat.xor_lt_two_pow (by norm_num) (by omega)
  · omega

theorem crcEntry_lt {n : Nat} (h : n < 2 ^ 32) : crcEntry n < 2 ^ 32 := by
  unfold crcEntry
  exact crcStep_lt (crcStep_lt (crcStep_lt (crcStep_lt (crcStep_lt (crcStep_lt
    (crcStep_lt (crcStep_lt h)))))))

theorem crcTable_getD_lt (i : Nat) : crcTable.getD i 0 < 2 ^ 32 := by
  by_cases h : i < crcTable.length
  · rw [List.getD_eq_getElem crcTable 0 h]
    have hmem : crcTable[i] ∈ crcTable := List.getElem_mem h
    rcases List.mem_map.mp hmem with ⟨n, hn, heq⟩
    rw [← heq]
    have : n < 256 := List.mem_range.mp hn
    exact crcEntry_lt (by omega)
  · rw [List.getD_eq_default _ _ (by omega)]
    norm_num

theorem crc32_fold_lt (s : JsStr) :
    ∀ acc, acc < 2 ^ 32 →
      s.foldl (fun crc c => (crc >>> 8) ^^^ crcTable.getD ((crc ^^^ c) &&& 0xFF) 0) acc
        < 2 ^ 32 := by
  induction s with
  | nil => exact fun acc h => h
  | cons c rest ih =>
    intro acc h
    apply ih
    apply Nat.xor_lt_two_pow
    · have hs : acc >>> 8 = acc / 2 ^ 8 := Nat.shiftRight_eq_div_pow acc 8
      omega
    · exact crcTable_getD_lt _

theorem crc32_lt (s : JsStr) : crc32 s < 2 ^ 32 := by
  unfold crc32
  exact Nat.xor_lt_two_pow (crc32_fold_lt s 0xFFFFFFFF (by norm_num)) (by norm_num)

/-! ## Envelope structure and delivery (C2) -/

theorem sublist_flatMap {A B : Type} {l : List A} {e : A} (he : e ∈ l) (f : A → List B)
    {s : List B} (hs : List.Sublist s (f e)) : List.Sublist s (l.flatMap f) := by
  induction l with
  | nil => cases he
  | cons a rest ih =>
    rcases List.mem_cons.mp he with h1 | h1
    · subst h1
      rw [List.flatMap_cons]
      exact hs.trans (List.sublist_append_left _ _)
    · rw [List.flatMap_cons]
      exact (ih h1).trans (List.sublist_append_right _ _)

theorem mkPacket_lenfield (b64 : JsStr) (crc : Nat) :
    ((mkPacket b64 crc).drop 4).take 4 = lenField b64.length := by
  unfold mkPacket
  rw [List.append_assoc, List.append_assoc, List.append_assoc]
  rw [drop_append_len ([33, 67, 80, 67] : JsStr) _ 4 rfl]
  rw [take_append_len _ _ 4 (lenField_length b64.length).symm]

/-- C2 counterexample: for the 49123-character message of letter a,
the base64 payload has length 65536 and the embedded length field of the
emitted packet is "0000" (char codes 48), which is not the exact payload
length zero-padded to 4 hex digits (that would need the 5 digits
"10000"). -/
theorem sendMessage_lenfield_counterexample :
    ((sendMessagePackets (List.replicate 49123 97)).1.drop 4).take 4 = [48, 48, 48, 48]
    ∧ (base64encode (mkBuf (List.replicate 49123 97))).length = 65536
    ∧ hexPad 4 65536 ≠ [48, 48, 48, 48] := by
  have hblen : (base64encode (mkBuf (List.replicate 49123 97))).length = 65536 := by
    rw [length_base64encode, mkBuf_length]
    norm_num
  refine ⟨?_, hblen, by decide⟩
  have h1 : (sendMessagePackets (List.replicate 49123 97)).1
      = mkPacket (base64encode (mkBuf (List.replicate 49123 97)))
          (crc32 (base64encode (mkBuf (List.replicate 49123 97)))) := rfl
  rw [h1, mkPacket_lenfield, hblen]
  decide

/-- C2 amended: sendMessage produces exactly two envelopes; whenever the
base64 payload is shorter than 65536 characters (messages up to 49122
UTF-16 units) each envelope is "!CPC", the payload length as lowercase
hex zero-padded to exactly 4 digits, the base64 payload, a CRC-32 as
lowercase hex zero-padded to exactly 8 digits — over the base64 text in
the first envelope and over the raw buffer bytes in the second — and a
newline; for longer messages the length field holds only the last 4 hex
digits.  Both envelopes are sent in that order to every member of every
active session, and to none if no session is active. -/
theorem sendMessage_envelopes (st : ServerState) (msg : JsStr)
    (hlen : (base64encode (mkBuf msg)).length < 65536) :
    ((sendMessagePackets msg).1
      = [33, 67, 80, 67] ++ hexPad 4 (base64encode (mkBuf msg)).length
        ++ base64encode (mkBuf msg) ++ hexPad 8 (crc32 (base64encode (mkBuf msg))) ++ [10]
    ∧ (sendMessagePackets msg).2
      = [33, 67, 80, 67] ++ hexPad 4 (base64encode (mkBuf msg)).length
        ++ base64encode (mkBuf msg) ++ hexPad 8 (crc32 (mkBuf msg)) ++ [10])
    ∧ (∀ sid pool, (sid, pool) ∈ st.connectionPools → ∀ x ∈ pool,
        List.Sublist [(x, (sendMessagePackets msg).1), (x, (sendMessagePackets msg).2)]
          (sendMessageSends st msg))
    ∧ (st.connectionPools = [] → sendMessageSends st msg = []) := by
  have hfield : lenField (base64encode (mkBuf msg)).length
      = hexPad 4 (base64encode (mkBuf msg)).length :=
    lenField_eq_hexPad _ (hexDigits_length_le _ 4 (by omega) (by norm_num at hlen ⊢; omega))
  have hcrc1 : crcField (crc32 (base64encode (mkBuf msg)))
      = hexPad 8 (crc32 (base64encode (mkBuf msg))) :=
    crcField_eq_hexPad _ (hexDigits_length_le _ 8 (by omega)
      (by have := crc32_lt (base64encode (mkBuf msg)); norm_num; omega))
  have hcrc2 : crcField (crc32 (mkBuf msg)) = hexPad 8 (crc32 (mkBuf msg)) :=
    crcField_eq_hexPad _ (hexDigits_length_le _ 8 (by omega)
      (by have := crc32_lt (mkBuf msg); norm_num; omega))
  refine ⟨⟨?_, ?_⟩, ?_, ?_⟩
  · show mkPacket _ _ = _
    unfold mkPacket
    rw [hfield, hcrc1]
  · show mkPacket _ _ = _
    unfold mkPacket
    rw [hfield, hcrc2]
  · intro sid pool hmem x hx
    unfold sendMessageSends
    apply sublist_flatMap hmem
    apply sublist_flatMap hx
    exact List.Sublist.refl _
  · intro hnil
    simp [sendMessageSends, hnil]

/-- Witness for C2's amended claim at the message "hi" and a registry
with one session holding one member. -/
theorem sendMessage_envelopes_witness :
    ((base64encode (mkBuf [104, 105])).length < 65536)
    ∧ ((sendMessagePackets [104, 105]).1
        = [33, 67, 80, 67] ++ hexPad 4 (base64encode (mkBuf [104, 105])).length
          ++ base64encode (mkBuf [104, 105])
          ++ hexPad 8 (crc32 (base64encode (mkBuf [104, 105]))) ++ [10])
    ∧ List.Sublist
        [((⟨0, true⟩ : Member), (sendMessagePackets [104, 105]).1),
         (⟨0, true⟩, (sendMessagePackets [104, 105]).2)]
        (sendMessageSends ⟨[("s", [⟨0, true⟩])], [("s", 0)]⟩ [104, 105]) :=
  ⟨by decide,
   (sendMessage_envelopes ⟨[("s", [⟨0, true⟩])], [("s", 0)]⟩ [104, 105] (by decide)).1.1,
   (sendMessage_envelopes ⟨[("s", [⟨0, true⟩])], [("s", 0)]⟩ [104, 105] (by decide)).2.1
     "s" [⟨0, true⟩] (by decide) ⟨0, true⟩ (by decide)⟩

end CraftOS
